import Mathlib

/-!
Verification of the cover-flow layout/animation engine and the Goodreads
RSS proxy endpoint of the `cover-flow` repository.

The JavaScript source is shallowly embedded:
* `src/public/js/config.js` constants become rational/natural constants.
* The item sequencer `createBookItemsWithYearDividers`
  (`src/public/js/cover-flow-renderer.js`) becomes a pure recursion over the
  `(book, image)` list; the host `Date` parsing inside `extractYearFromBook`
  is abstracted by storing a book's extracted year (`getFullYear()` result or
  `null`) as an `Option Int` field.
* The column packer / wall builder (`fillColumns`, `addColumnToRight`) become
  total functions: the JavaScript `while (!filled && repeats < MAX_REPEATS)`
  loops are modelled by structural recursion on the remaining repeat budget,
  and the inner `for` loops by recursion on the remaining item count.
  DOM children of a column's `div` are modelled by the list of placed entries.
* The animation frame handler (`src/public/js/animation-controller.js`)
  becomes a state-transformer `frameStep` on an explicit `AnimState`.
* The API handler (the validated `api/goodreads.js` variant, exercised by the
  repository's tests) becomes a function from the query record to an outcome
  that distinguishes a `400` rejection from reaching the upstream fetch.
Pixel quantities are rationals (JavaScript numbers used here stay exact for
the operations performed); the one intentional divergence is that division by
a zero `naturalWidth` yields `0` in `ℚ` rather than `Infinity`.
-/

namespace CoverFlow

/-- CONFIG.COLUMN_WIDTH from config.js. -/
def COLUMN_WIDTH : ℚ := 200

/-- CONFIG.MAX_IMAGE_HEIGHT from config.js. -/
def MAX_IMAGE_HEIGHT : ℚ := 320

/-- CONFIG.YEAR_TAG_HEIGHT from config.js. -/
def YEAR_TAG_HEIGHT : ℚ := 60

/-- CONFIG.YEAR_TAG_MARGIN from config.js. -/
def YEAR_TAG_MARGIN : ℚ := 20

/-- CONFIG.ANIMATION_SPEED from config.js (pixels per second). -/
def ANIMATION_SPEED : ℚ := 30

/-- CONFIG.MAX_REPEATS from config.js (wrap-around guard for packing). -/
def MAX_REPEATS : Nat := 10

/-- A preloaded image element: only its intrinsic dimensions matter to the
layout engine (`naturalWidth`/`naturalHeight`). -/
structure Image where
  naturalWidth : ℚ
  naturalHeight : ℚ
deriving DecidableEq, Repr

/-- A book record as seen by the sequencer. `readYear` is the result of
`extractYearFromBook`: `new Date(book.read_at).getFullYear()` when `read_at`
is present and parseable, otherwise `null` (`none`). -/
structure Book where
  readYear : Option Int
deriving DecidableEq, Repr

/-- A flat sequence entry produced by `createBookItemsWithYearDividers`:
either a `year-divider` item or a `book` item carrying its source index. -/
inductive Item where
  | yearDivider (year : Int)
  | book (book : Book) (image : Image) (index : Nat)
deriving DecidableEq, Repr

/-- Default entry used only to totalize list indexing in specifications. -/
def defaultItem : Item := Item.yearDivider 0

/-- calculateScaledHeight from cover-flow-renderer.js:
`min(naturalHeight * (COLUMN_WIDTH / naturalWidth), MAX_IMAGE_HEIGHT)`. -/
def calculateScaledHeight (image : Image) : ℚ :=
  min (image.naturalHeight * (COLUMN_WIDTH / image.naturalWidth)) MAX_IMAGE_HEIGHT

/-- The pixel height an entry contributes to a column, as in
`addItemToColumn` (renderer) and the corresponding branches of
`addColumnToRight` (animation controller). -/
def itemHeight : Item → ℚ
  | Item.yearDivider _ => YEAR_TAG_HEIGHT + YEAR_TAG_MARGIN
  | Item.book _ image _ => calculateScaledHeight image

/-- A column: the entries appended to its `div` (in DOM order) and its
accumulated pixel `height`. -/
structure Column where
  entries : List Item
  height : ℚ
deriving DecidableEq, Repr

/-- A freshly created (or pool-recycled and cleared) column. -/
def Column.empty : Column := ⟨[], 0⟩

/-- addItemToColumn from cover-flow-renderer.js: append the rendered node and
add the entry's height. -/
def addItemToColumn (col : Column) (item : Item) : Column :=
  ⟨col.entries ++ [item], col.height + itemHeight item⟩

/-- createColumns from cover-flow-renderer.js: `numCols` empty columns
(pool-recycled columns are cleared to the same state). -/
def createColumns (numCols : Nat) : List Column :=
  List.replicate numCols Column.empty

/-- The loop body of `createBookItemsWithYearDividers`, threading the source
index `idx` and the `lastYear` tracking variable. A missing image slot
(`none`, or the books list outrunning the images list) is skipped entirely.
The divider guard is the JavaScript test
`if (currentYear && currentYear !== lastYear)`: `currentYear` must be truthy
(non-null and non-zero) and differ from `lastYear`. -/
def itemsGo : List Book → List (Option Image) → Nat → Option Int → List Item
  | [], _, _, _ => []
  | _ :: books, [], idx, lastYear => itemsGo books [] (idx + 1) lastYear
  | _ :: books, none :: images, idx, lastYear => itemsGo books images (idx + 1) lastYear
  | b :: books, some img :: images, idx, lastYear =>
    match b.readYear with
    | some y =>
      if y ≠ 0 ∧ some y ≠ lastYear then
        Item.yearDivider y :: Item.book b img idx :: itemsGo books images (idx + 1) (some y)
      else
        Item.book b img idx :: itemsGo books images (idx + 1) lastYear
    | none => Item.book b img idx :: itemsGo books images (idx + 1) lastYear

/-- createBookItemsWithYearDividers from cover-flow-renderer.js: `lastYear`
starts as `null`, the index at `0`. -/
def createBookItemsWithYearDividers (books : List Book) (images : List (Option Image)) :
    List Item :=
  itemsGo books images 0 none

/-- The header `while (colIdx < columns.length && columns[colIdx].height >= height)`
loop of `fillColumns`, with an explicit step budget: the loop runs at most
`cols.length - colIdx` times, and when the budget is exhausted the guard
`colIdx < cols.length` is necessarily false, so returning `colIdx` coincides
with the loop's exit in every reachable configuration. -/
def skipFullAux (cols : List Column) (target : ℚ) : Nat → Nat → Nat
  | 0, colIdx => colIdx
  | fuel + 1, colIdx =>
    if h : colIdx < cols.length then
      if target ≤ (cols.get ⟨colIdx, h⟩).height then skipFullAux cols target fuel (colIdx + 1)
      else colIdx
    else colIdx

/-- Advance `colIdx` past columns that already reached the target height. -/
def skipFull (cols : List Column) (target : ℚ) (colIdx : Nat) : Nat :=
  skipFullAux cols target (cols.length - colIdx) colIdx

/-- The inner `for (let i = nextItemIdx; i < items.length; ++i)` loop of
`fillColumns`, with step budget `items.length - i` (exhaustion coincides with
the loop condition turning false). Returns the column list, the final
`colIdx`, and `some i` when every column reached the target height
(`filled = true`, `nextItemIdx = i`), or `none` when the item list was
exhausted first. -/
def fillLoopAux (items : List Item) (target : ℚ) :
    Nat → List Column → Nat → Nat → List Column × Nat × Option Nat
  | 0, cols, colIdx, _ => (cols, colIdx, none)
  | fuel + 1, cols, colIdx, i =>
    if h : i < items.length then
      if hf : skipFull cols target colIdx < cols.length then
        fillLoopAux items target fuel
          (cols.set (skipFull cols target colIdx)
            (addItemToColumn (cols.get ⟨skipFull cols target colIdx, hf⟩) (items.get ⟨i, h⟩)))
          (skipFull cols target colIdx) (i + 1)
      else (cols, skipFull cols target colIdx, some i)
    else (cols, colIdx, none)

/-- One pass of the `fillColumns` item loop starting at item `i`. -/
def fillLoop (items : List Item) (target : ℚ) (cols : List Column) (colIdx i : Nat) :
    List Column × Nat × Option Nat :=
  fillLoopAux items target (items.length - i) cols colIdx i

/-- The outer `while (!filled && repeats < MAX_REPEATS)` loop of
`fillColumns`, by recursion on the remaining repeat budget. On a wrap the
source resets `colIdx` and `nextItemIdx` to `0`; when the budget is exhausted
the returned `nextItemIdx` is the `0` set by the last wrap. -/
def fillGo (items : List Item) (target : ℚ) : Nat → List Column → List Column × Nat
  | 0, cols => (cols, 0)
  | fuel + 1, cols =>
    match fillLoop items target cols 0 0 with
    | (cols2, _, some nextItemIdx) => (cols2, nextItemIdx)
    | (cols2, _, none) => fillGo items target fuel cols2

/-- fillColumns from cover-flow-renderer.js: distribute the item walk over
the given columns up to the target height, returning the updated columns and
the `nextItemIdx` continuation cursor. -/
def fillColumns (cols : List Column) (items : List Item) (target : ℚ) :
    List Column × Nat :=
  fillGo items target MAX_REPEATS cols

/-- The inner `for (; i < items.length; ++i)` loop of `addColumnToRight`,
with step budget `items.length - i` (exhaustion coincides with the loop
condition turning false): every visited entry is appended to the column,
then `if (col.height >= height)` sets `filled`, increments `i` and breaks.
Returns the column, the final `i`, and the `filled` flag. -/
def packLoopAux (items : List Item) (target : ℚ) : Nat → Nat → Column → Column × Nat × Bool
  | 0, i, col => (col, i, false)
  | fuel + 1, i, col =>
    if h : i < items.length then
      if target ≤ (addItemToColumn col (items.get ⟨i, h⟩)).height then
        (addItemToColumn col (items.get ⟨i, h⟩), i + 1, true)
      else packLoopAux items target fuel (i + 1) (addItemToColumn col (items.get ⟨i, h⟩))
    else (col, i, false)

/-- One pass of the `addColumnToRight` item loop starting at item `i`. -/
def packLoop (items : List Item) (target : ℚ) (i : Nat) (col : Column) :
    Column × Nat × Bool :=
  packLoopAux items target (items.length - i) i col

/-- The `while (!filled && repeats < MAX_REPEATS)` loop of
`addColumnToRight`. On a wrap `i` is reset to `0`; when the repeat budget is
exhausted the loop exits with the `i = 0` set by the last wrap. -/
def packGo (items : List Item) (target : ℚ) : Nat → Nat → Column → Column × Nat
  | 0, i, col => (col, i)
  | fuel + 1, i, col =>
    match packLoop items target i col with
    | (col2, i2, true) => (col2, i2)
    | (col2, _, false) => packGo items target fuel 0 col2

/-- addColumnToRight from animation-controller.js: pack one fresh column
starting at `nextItemIdx` and return it together with `i % items.length`. -/
def addColumnToRight (items : List Item) (target : ℚ) (nextItemIdx : Nat) :
    Column × Nat :=
  ((packGo items target MAX_REPEATS nextItemIdx Column.empty).1,
   (packGo items target MAX_REPEATS nextItemIdx Column.empty).2 % items.length)

/-- The mutable per-wall animation state of `AnimationController`. -/
structure AnimState where
  coverFlowOffset : ℚ
  currentColumns : List Column
  nextItemIdx : Nat
deriving DecidableEq, Repr

/-- The state `AnimationController.start` establishes before the first frame:
offset `0`, the given columns, and `initialNextItemIdx % items.length`. -/
def startState (columns : List Column) (items : List Item) (initialNextItemIdx : Nat) :
    AnimState :=
  ⟨0, columns, initialNextItemIdx % items.length⟩

/-- getWallWidth from animation-controller.js. -/
def getWallWidth (st : AnimState) (colWidth : ℚ) : ℚ :=
  st.currentColumns.length * colWidth

/-- `this.coverFlowOffset -= (CONFIG.ANIMATION_SPEED * delta) / 1000`. -/
def advanceOffset (st : AnimState) (delta : ℚ) : AnimState :=
  { st with coverFlowOffset := st.coverFlowOffset - ANIMATION_SPEED * delta / 1000 }

/-- The synthesis step of `animateCoverFlow`:
`if (wallWidth + offset < viewportWidth + colWidth)` synthesize one column
via `addColumnToRight`, append it, and adopt the returned cursor. -/
def synthStep (items : List Item) (target colWidth viewportWidth : ℚ)
    (st : AnimState) : AnimState :=
  if getWallWidth st colWidth + st.coverFlowOffset < viewportWidth + colWidth then
    { st with
      currentColumns := st.currentColumns ++ [(addColumnToRight items target st.nextItemIdx).1],
      nextItemIdx := (addColumnToRight items target st.nextItemIdx).2 }
  else st

/-- removeColumnFromLeft from animation-controller.js: when the leftmost
column has fully left the viewport, drop it and renormalize the offset by one
column width. Runs at most once per frame and only when columns exist. -/
def removeColumnFromLeft (colWidth : ℚ) (st : AnimState) : AnimState :=
  if st.currentColumns = [] then st
  else if st.coverFlowOffset + colWidth ≤ 0 then
    { st with
      currentColumns := st.currentColumns.drop 1,
      coverFlowOffset := st.coverFlowOffset + colWidth }
  else st

/-- One invocation of the `animateCoverFlow` frame callback with elapsed time
`delta` (milliseconds): advance the offset, run the synthesis check, then the
retirement check. The state after `frameStep` is the state immediately after
the retirement check of that frame. -/
def frameStep (items : List Item) (target colWidth viewportWidth : ℚ)
    (st : AnimState) (delta : ℚ) : AnimState :=
  removeColumnFromLeft colWidth
    (synthStep items target colWidth viewportWidth (advanceOffset st delta))

/-- A run of consecutive frames with the given elapsed-time deltas. -/
def runFrames (items : List Item) (target colWidth viewportWidth : ℚ)
    (st : AnimState) (deltas : List ℚ) : AnimState :=
  deltas.foldl (frameStep items target colWidth viewportWidth) st

/-- `N` consecutive column syntheses by the scroll engine, threading the
cursor exactly as the frame loop does. -/
def synthColumns (items : List Item) (target : ℚ) : Nat → Nat → List Column × Nat
  | 0, cursor => ([], cursor)
  | n + 1, cursor =>
    ((addColumnToRight items target cursor).1 ::
       (synthColumns items target n (addColumnToRight items target cursor).2).1,
     (synthColumns items target n (addColumnToRight items target cursor).2).2)

/-- The contiguous wrap-around walk of `items`: `n` entries read from
position `start`, indices reduced modulo the sequence length (specification
device used to state seam continuity). -/
def walkFrom (items : List Item) : Nat → Nat → List Item
  | _, 0 => []
  | s, n + 1 => items.getD (s % items.length) defaultItem :: walkFrom items (s + 1) n

/-- DOM order of all entries of a list of columns, column by column. -/
def flattenCols : List Column → List Item
  | [] => []
  | c :: cs => c.entries ++ flattenCols cs

/-- The query record of a request to `/api/goodreads`; a missing parameter is
`none` (JavaScript `undefined`), an empty supplied value is `some ""`. -/
structure ApiQuery where
  userId : Option String
  shelf : Option String
  page : Option String
deriving DecidableEq, Repr

/-- The observable outcome of the handler: a non-GET rejection, a `400`
rejection with its error body string, or reaching `handleSinglePage` (which
performs the upstream fetch) with the validated parameters. -/
inductive ApiOutcome where
  | methodNotAllowed
  | badRequest (error : String)
  | fetchUpstream (userId shelf : String) (pageNum : Int)
deriving DecidableEq, Repr

/-- Semantics of `/^\d+$/.test(s)`: non-empty and all decimal digits. -/
def matchesNumeric (s : String) : Bool :=
  s.toList ≠ [] && s.toList.all Char.isDigit

/-- One character of the shelf character class `[a-zA-Z0-9_-]`. -/
def isShelfChar (c : Char) : Bool :=
  (c ≥ 'a' && c ≤ 'z') || (c ≥ 'A' && c ≤ 'Z') || (c ≥ '0' && c ≤ '9') ||
    c = '_' || c = '-'

/-- Semantics of `/^[a-zA-Z0-9_-]+$/.test(s)`. -/
def matchesShelf (s : String) : Bool :=
  s.toList ≠ [] && s.toList.all isShelfChar

/-- Leading whitespace skipped by `parseInt`. -/
def skipSpaces : List Char → List Char
  | c :: cs => if c = ' ' ∨ c = '\t' ∨ c = '\n' ∨ c = '\r' then skipSpaces cs else c :: cs
  | [] => []

/-- Value of a digit list (base 10). -/
def digitsToNat (cs : List Char) : Nat :=
  cs.foldl (fun acc c => 10 * acc + (c.toNat - 48)) 0

/-- Semantics of `parseInt(s, 10)`: optional sign then a non-empty digit
prefix; `none` models `NaN`. -/
def parseIntJS (s : String) : Option Int :=
  match skipSpaces s.toList with
  | '-' :: rest =>
    if rest.takeWhile Char.isDigit = [] then none
    else some (-(digitsToNat (rest.takeWhile Char.isDigit) : Int))
  | '+' :: rest =>
    if rest.takeWhile Char.isDigit = [] then none
    else some (digitsToNat (rest.takeWhile Char.isDigit))
  | cs =>
    if cs.takeWhile Char.isDigit = [] then none
    else some (digitsToNat (cs.takeWhile Char.isDigit))

/-- Error body strings of the handler. -/
def msgMissingUserId : String := "Missing required parameter \"userId\""

/-- Error body for a non-numeric userId. -/
def msgInvalidUserId : String := "Invalid userId format. Must be numeric."

/-- Error body for a malformed shelf. -/
def msgInvalidShelf : String :=
  "Invalid shelf format. Only alphanumeric characters, hyphens, and underscores allowed."

/-- Error body for a bad page number. -/
def msgInvalidPage : String := "Invalid page number"

/-- The GET method string. -/
def methodGET : String := "GET"

/-- Default shelf applied by the destructuring default. -/
def defaultShelf : String := "read"

/-- Default page applied by the destructuring default. -/
def defaultPage : String := "1"

/-- The validation pipeline of the api/goodreads.js handler:
method check, `!userId` check (missing or empty), `^\d+$` check on userId,
truthy-shelf regex check, `parseInt` page check, then the upstream fetch. -/
def handler (method : String) (q : ApiQuery) : ApiOutcome :=
  if method ≠ methodGET then ApiOutcome.methodNotAllowed
  else
    match q.userId with
    | none => ApiOutcome.badRequest msgMissingUserId
    | some userId =>
      if userId = "" then ApiOutcome.badRequest msgMissingUserId
      else if ¬ matchesNumeric userId then ApiOutcome.badRequest msgInvalidUserId
      else
        if q.shelf.getD defaultShelf ≠ "" ∧ ¬ matchesShelf (q.shelf.getD defaultShelf) then
          ApiOutcome.badRequest msgInvalidShelf
        else
          match parseIntJS (q.page.getD defaultPage) with
          | none => ApiOutcome.badRequest msgInvalidPage
          | some n =>
            if n < 1 then ApiOutcome.badRequest msgInvalidPage
            else ApiOutcome.fetchUpstream userId (q.shelf.getD defaultShelf) n

/-! ### Concrete fixtures used by witnesses and counterexamples -/

/-- A book whose `read_at` parsed to the year `y`. -/
def yearBook (y : Int) : Book := ⟨some y⟩

/-- A book with a missing or unparseable `read_at`. -/
def nullBook : Book := ⟨none⟩

/-- A 100x150 cover image (scaled height `min(150 * 200/100, 320) = 300`). -/
def sampleImage : Image := ⟨100, 150⟩

/-- Books whose extracted years are `[2021, 2021, 2022, null, 2022]`. -/
def gapBooks : List Book :=
  [yearBook 2021, yearBook 2021, yearBook 2022, nullBook, yearBook 2022]

/-- Five present assets for `gapBooks`. -/
def gapImages : List (Option Image) := List.replicate 5 (some sampleImage)

/-- A valid numeric userId value. -/
def sampleUserId : String := "123"

/-- The empty string (an empty supplied query value). -/
def emptyString : String := ""

/-- A non-numeric userId value. -/
def badUserId : String := "abc"

/-- A far-too-large target height for a single 80-pixel divider entry. -/
def bigTarget : ℚ := 100000

/-! ### Item sequencer: divider placement (claims C6, C7, C8) -/

/-- Claim C6 counterexample: on extracted years `[2021, 2021, 2022, null, 2022]`
(all assets present) the entry immediately preceding the index-4 2022 book
(position 6 of the output) is the index-3 book, not a 2022 year divider: the
null-year entry leaves `lastYear = 2022`, so no divider is re-emitted before
the second 2022 book, contrary to the claim. -/
theorem year_divider_gap_counterexample :
    (createBookItemsWithYearDividers gapBooks gapImages).getD 6 defaultItem =
      Item.book (yearBook 2022) sampleImage 4 ∧
    (createBookItemsWithYearDividers gapBooks gapImages).getD 5 defaultItem =
      Item.book nullBook sampleImage 3 := by
  constructor <;> rfl

/-- Claim C6 (amended): on extracted years `[2021, 2021, 2022, null, 2022]`
(all assets present) the emitted sequence carries year dividers exactly
before the first 2021 entry and before the first (index-2) 2022 entry; no
divider precedes the second (index-4) 2022 entry because the null-year entry
does not alter the last-emitted-year state. -/
theorem year_divider_gap_sequence :
    createBookItemsWithYearDividers gapBooks gapImages =
      [Item.yearDivider 2021, Item.book (yearBook 2021) sampleImage 0,
       Item.book (yearBook 2021) sampleImage 1, Item.yearDivider 2022,
       Item.book (yearBook 2022) sampleImage 2, Item.book nullBook sampleImage 3,
       Item.book (yearBook 2022) sampleImage 4] := by
  rfl

/-- Claim C7 counterexample: a book whose extracted year is `0` has a
non-null year that differs from the initial "none" tracking state, yet no
divider is emitted: the source guard `if (currentYear && ...)` treats the
year `0` as falsy. -/
theorem year_zero_divider_counterexample :
    (yearBook 0).readYear ≠ none ∧
    createBookItemsWithYearDividers [yearBook 0] [some sampleImage] =
      [Item.book (yearBook 0) sampleImage 0] := by
  constructor
  · simp [yearBook]
  · rfl

/-- Claim C7 (amended): a null-year entry emits only its book item and leaves
the tracked last-emitted year unchanged; for a non-null year `y` a divider is
emitted exactly when `y` is also non-zero (JavaScript truthiness) and differs
from the tracked year; consequently `[2021, null, 2021]` yields a single
divider. -/
theorem null_year_transparent_tracking :
    (∀ (b : Book) (img : Image) (idx : Nat) (books : List Book)
        (images : List (Option Image)) (lastYear : Option Int),
        b.readYear = none →
        itemsGo (b :: books) (some img :: images) idx lastYear =
          Item.book b img idx :: itemsGo books images (idx + 1) lastYear) ∧
    (∀ (b : Book) (img : Image) (idx : Nat) (books : List Book)
        (images : List (Option Image)) (lastYear : Option Int) (y : Int),
        b.readYear = some y →
        (itemsGo (b :: books) (some img :: images) idx lastYear =
           Item.yearDivider y :: Item.book b img idx ::
             itemsGo books images (idx + 1) (some y)
         ↔ y ≠ 0 ∧ some y ≠ lastYear)) ∧
    createBookItemsWithYearDividers [yearBook 2021, nullBook, yearBook 2021]
        (List.replicate 3 (some sampleImage)) =
      [Item.yearDivider 2021, Item.book (yearBook 2021) sampleImage 0,
       Item.book nullBook sampleImage 1, Item.book (yearBook 2021) sampleImage 2] := by
  refine ⟨?_, ?_, rfl⟩
  · intro b img idx books images lastYear hb
    simp [itemsGo, hb]
  · intro b img idx books images lastYear y hb
    simp only [itemsGo, hb]
    by_cases hcond : y ≠ 0 ∧ some y ≠ lastYear
    · simp [hcond]
    · simp [hcond]

/-- Witness for C7: a concrete null-year entry is transparent. -/
theorem null_year_transparent_tracking_witness :
    itemsGo [nullBook] [some sampleImage] 0 none =
      [Item.book nullBook sampleImage 0] := by
  rw [null_year_transparent_tracking.1 nullBook sampleImage 0 [] [] none rfl]
  rfl

/-- Running the sequencer with an exhausted image list emits nothing
(`images[idx]` is undefined for every remaining index). -/
theorem itemsGo_images_nil (books : List Book) :
    ∀ (idx : Nat) (lastYear : Option Int), itemsGo books [] idx lastYear = [] := by
  induction books with
  | nil => intro idx lastYear; rfl
  | cons b bs ih => intro idx lastYear; simpa [itemsGo] using ih (idx + 1) lastYear

/-- Every book item the sequencer emits originates from a position `k` of the
input lists holding that book and a present copy of that image, with the
emitted source index equal to the running index plus `k`. -/
theorem itemsGo_book_mem :
    ∀ (books : List Book) (images : List (Option Image)) (idx0 : Nat)
      (lastYear : Option Int) (b : Book) (img : Image) (j : Nat),
      Item.book b img j ∈ itemsGo books images idx0 lastYear →
      ∃ k, j = idx0 + k ∧ books.getD k nullBook = b ∧
        images.getD k none = some img := by
  intro books
  induction books with
  | nil =>
    intro images idx0 lastYear b img j hmem
    simp [itemsGo] at hmem
  | cons b0 bs ih =>
    intro images idx0 lastYear b img j hmem
    match images with
    | [] =>
      rw [itemsGo_images_nil] at hmem
      simp at hmem
    | none :: imgs =>
      simp only [itemsGo] at hmem
      obtain ⟨k, hk, hb, himg⟩ := ih imgs (idx0 + 1) lastYear b img j hmem
      exact ⟨k + 1, by omega, by simpa using hb, by simpa using himg⟩
    | some img0 :: imgs =>
      obtain ⟨ry⟩ := b0
      simp only [itemsGo] at hmem
      have fromTail :
          ∀ last2 : Option Int,
            Item.book b img j ∈ itemsGo bs imgs (idx0 + 1) last2 →
            ∃ k, j = idx0 + k ∧ (Book.mk ry :: bs).getD k nullBook = b ∧
              (some img0 :: imgs).getD k none = some img := by
        intro last2 htail
        obtain ⟨k, hk, hb, himg⟩ := ih imgs (idx0 + 1) last2 b img j htail
        exact ⟨k + 1, by omega, by simpa using hb, by simpa using himg⟩
      have fromHead :
          Item.book b img j = Item.book (Book.mk ry) img0 idx0 →
            ∃ k, j = idx0 + k ∧ (Book.mk ry :: bs).getD k nullBook = b ∧
              (some img0 :: imgs).getD k none = some img := by
        intro hhead
        injection hhead with hb himg hj
        exact ⟨0, by omega, by simp [hb], by simp [himg]⟩
      cases ry with
      | none =>
        rcases List.mem_cons.mp hmem with hhead | htail
        · exact fromHead hhead
        · exact fromTail lastYear htail
      | some y =>
        have hmem2 : Item.book b img j ∈
            (if y ≠ 0 ∧ some y ≠ lastYear then
               Item.yearDivider y :: Item.book (Book.mk (some y)) img0 idx0 ::
                 itemsGo bs imgs (idx0 + 1) (some y)
             else Item.book (Book.mk (some y)) img0 idx0 ::
                 itemsGo bs imgs (idx0 + 1) lastYear) := hmem
        by_cases hcond : y ≠ 0 ∧ some y ≠ lastYear
        · rw [if_pos hcond] at hmem2
          rcases List.mem_cons.mp hmem2 with hdiv | hmem3
          · exact absurd hdiv (by simp)
          · rcases List.mem_cons.mp hmem3 with hhead | htail
            · exact fromHead hhead
            · exact fromTail (some y) htail
        · rw [if_neg hcond] at hmem2
          rcases List.mem_cons.mp hmem2 with hhead | htail
          · exact fromHead hhead
          · exact fromTail lastYear htail

/-- Claim C8: an absent asset at position `i` excludes any book with source
index `i` from the whole output, and a skipped position contributes nothing
to the sequence or to the divider-tracking state. -/
theorem absent_asset_exclusion :
    (∀ (books : List Book) (images : List (Option Image)) (i : Nat)
        (b : Book) (img : Image),
        images.getD i none = none →
        Item.book b img i ∉ createBookItemsWithYearDividers books images) ∧
    (∀ (b : Book) (idx : Nat) (books : List Book) (images : List (Option Image))
        (lastYear : Option Int),
        itemsGo (b :: books) (none :: images) idx lastYear =
          itemsGo books images (idx + 1) lastYear) := by
  constructor
  · intro books images i b img habsent hmem
    obtain ⟨k, hk, _, himg⟩ :=
      itemsGo_book_mem books images 0 none b img i hmem
    have hki : k = i := by omega
    rw [hki, habsent] at himg
    exact Option.noConfusion himg
  · intro b idx books images lastYear
    rfl

/-- Witness for C8: with the single asset absent, the index-0 book never
appears in the output. -/
theorem absent_asset_exclusion_witness :
    Item.book (yearBook 2021) sampleImage 0 ∉
      createBookItemsWithYearDividers [yearBook 2021] [none] :=
  absent_asset_exclusion.1 [yearBook 2021] [none] 0 (yearBook 2021) sampleImage rfl

/-! ### API input validation (claim C9) -/

/-- Claim C9 counterexample: a supplied empty shelf value does not match
`^[a-zA-Z0-9_-]+$`, yet the request is not rejected with `400`: the source
guard `if (shelf && !regex.test(shelf))` treats the empty string as falsy,
skips validation, and the handler proceeds to the upstream fetch with
`shelf = ""`. -/
theorem empty_shelf_not_rejected :
    matchesShelf emptyString = false ∧
    handler methodGET ⟨some sampleUserId, some emptyString, none⟩ =
      ApiOutcome.fetchUpstream sampleUserId emptyString 1 := by
  constructor
  · rfl
  · rfl

/-- Claim C9 (amended): a missing userId, or a supplied userId not matching
`^\d+$`, is rejected with a `400` error body before any upstream fetch; a
supplied non-empty shelf value not matching `^[a-zA-Z0-9_-]+$` is likewise
rejected (an empty shelf string is falsy and bypasses the check). The
`badRequest` outcome carries the error body string and is distinct from the
`fetchUpstream` outcome, so no upstream fetch is attempted. -/
theorem api_input_validation :
    (∀ q : ApiQuery, q.userId = none →
        handler methodGET q = ApiOutcome.badRequest msgMissingUserId) ∧
    (∀ (q : ApiQuery) (s : String), q.userId = some s →
        matchesNumeric s = false →
        ∃ msg, handler methodGET q = ApiOutcome.badRequest msg) ∧
    (∀ (q : ApiQuery) (s : String), q.shelf = some s → s ≠ "" →
        matchesShelf s = false →
        ∃ msg, handler methodGET q = ApiOutcome.badRequest msg) := by
  refine ⟨?_, ?_, ?_⟩
  · intro q hq
    simp [handler, hq]
  · intro q s hq hnum
    by_cases hs : s = ""
    · exact ⟨msgMissingUserId, by simp [handler, hq, hs]⟩
    · exact ⟨msgInvalidUserId, by simp [handler, hq, hs, hnum]⟩
  · intro q s hshelf hs hmatch
    match hq : q.userId with
    | none => exact ⟨msgMissingUserId, by simp [handler, hq]⟩
    | some u =>
      by_cases hu : u = ""
      · exact ⟨msgMissingUserId, by simp [handler, hq, hu]⟩
      · by_cases hnum : matchesNumeric u
        · refine ⟨msgInvalidShelf, ?_⟩
          simp [handler, hq, hu, hnum, hshelf, hs, hmatch]
        · exact ⟨msgInvalidUserId, by simp [handler, hq, hu, hnum]⟩

/-- Witness for C9: a concrete non-numeric userId is rejected with a `400`
error body. -/
theorem api_input_validation_witness :
    ∃ msg, handler methodGET ⟨some badUserId, none, none⟩ =
      ApiOutcome.badRequest msg :=
  api_input_validation.2.1 ⟨some badUserId, none, none⟩ badUserId rfl (by rfl)

/-! ### Packing termination (claim C3) -/

/-- Each step of the inner packing loop appends at most one entry. -/
theorem packLoopAux_entries_le (items : List Item) (target : ℚ) :
    ∀ (fuel i : Nat) (col : Column),
      ((packLoopAux items target fuel i col).1).entries.length ≤
        col.entries.length + fuel := by
  intro fuel
  induction fuel with
  | zero => intro i col; simp [packLoopAux]
  | succ n ih =>
    intro i col
    rw [packLoopAux]
    by_cases h : i < items.length
    · rw [dif_pos h]
      by_cases hfull : target ≤ (addItemToColumn col (items.get ⟨i, h⟩)).height
      · rw [if_pos hfull]
        simp [addItemToColumn]
      · rw [if_neg hfull]
        refine (ih (i + 1) (addItemToColumn col (items.get ⟨i, h⟩))).trans ?_
        simp [addItemToColumn]
        omega
    · rw [dif_neg h]
      dsimp only
      omega

/-- One pass of the packing loop grows the column by at most the number of
items remaining, hence by at most one full pass over the items. -/
theorem packLoop_entries_le (items : List Item) (target : ℚ) (i : Nat) (col : Column) :
    ((packLoop items target i col).1).entries.length ≤
      col.entries.length + items.length := by
  refine (packLoopAux_entries_le items target (items.length - i) i col).trans ?_
  omega

/-- Each repeat of the packing loop grows the column by at most one full pass
over the items, so the total growth is bounded by the repeat budget. -/
theorem packGo_entries_le (items : List Item) (target : ℚ) :
    ∀ (fuel i : Nat) (col : Column),
      ((packGo items target fuel i col).1).entries.length ≤
        col.entries.length + fuel * items.length := by
  intro fuel
  induction fuel with
  | zero => intro i col; simp [packGo]
  | succ n ih =>
    intro i col
    have hmul : (n + 1) * items.length = n * items.length + items.length := by ring
    rcases hpl : packLoop items target i col with ⟨col2, i2, fl⟩
    have hle := packLoop_entries_le items target i col
    rw [hpl] at hle
    dsimp only at hle
    rw [packGo, hpl]
    cases fl with
    | true =>
      dsimp only
      omega
    | false =>
      dsimp only
      have hrec := ih 0 col2
      omega

/-- Claim C3: packing one column never exceeds `MAX_REPEATS` passes over the
item sequence (the loop is bounded by the repeat guard and always returns),
and a target height far larger than the available content is accepted
silently as an underfull column: for a single 80-pixel divider and target
`100000` the returned column stops at 10 entries and height `800 < 100000`. -/
theorem packColumn_terminates :
    (∀ (items : List Item) (target : ℚ) (startCursor : Nat),
        ((addColumnToRight items target startCursor).1).entries.length ≤
          MAX_REPEATS * items.length) ∧
    ((addColumnToRight [Item.yearDivider 2021] bigTarget 0).1.height < bigTarget ∧
      (addColumnToRight [Item.yearDivider 2021] bigTarget 0).1.entries.length =
        MAX_REPEATS) := by
  constructor
  · intro items target startCursor
    have := packGo_entries_le items target MAX_REPEATS startCursor Column.empty
    simpa [addColumnToRight, Column.empty] using this
  · constructor
    · norm_num [addColumnToRight, packGo, packLoop, packLoopAux, addItemToColumn, itemHeight,
        bigTarget, MAX_REPEATS, YEAR_TAG_HEIGHT, YEAR_TAG_MARGIN, Column.empty]
    · norm_num [addColumnToRight, packGo, packLoop, packLoopAux, addItemToColumn, itemHeight,
        bigTarget, MAX_REPEATS, YEAR_TAG_HEIGHT, YEAR_TAG_MARGIN, Column.empty]

/-! ### The wrap-around walk and its algebra -/

/-- A walk has as many entries as were requested. -/
theorem walkFrom_length (items : List Item) : ∀ (s n : Nat), (walkFrom items s n).length = n := by
  intro s n
  induction n generalizing s with
  | zero => rfl
  | succ k ih => simp [walkFrom, ih]

/-- A walk decomposes at any intermediate point. -/
theorem walkFrom_append (items : List Item) :
    ∀ (a s b : Nat), walkFrom items s (a + b) =
      walkFrom items s a ++ walkFrom items (s + a) b := by
  intro a
  induction a with
  | zero => intro s b; simp [walkFrom]
  | succ k ih =>
    intro s b
    have hrw : k + 1 + b = (k + b) + 1 := by omega
    rw [hrw]
    show items.getD (s % items.length) defaultItem :: walkFrom items (s + 1) (k + b) = _
    rw [ih (s + 1) b]
    have hs : s + 1 + k = s + (k + 1) := by omega
    rw [hs]
    rfl

/-- Walks from congruent start positions coincide. -/
theorem walkFrom_congr (items : List Item) :
    ∀ (n s t : Nat), s % items.length = t % items.length →
      walkFrom items s n = walkFrom items t n := by
  intro n
  induction n with
  | zero => intro s t _; rfl
  | succ k ih =>
    intro s t h
    show items.getD (s % items.length) defaultItem :: walkFrom items (s + 1) k = _
    rw [h, ih (s + 1) (t + 1) (Nat.ModEq.add_right 1 h)]
    rfl

/-- Inside the first pass the walk reads the list itself. -/
theorem walkFrom_cons_of_lt (items : List Item) (i : Nat) (h : i < items.length) (n : Nat) :
    walkFrom items i (n + 1) = items.get ⟨i, h⟩ :: walkFrom items (i + 1) n := by
  show items.getD (i % items.length) defaultItem :: _ = _
  rw [Nat.mod_eq_of_lt h, List.getD_eq_getElem _ _ h]
  rfl

/-! ### The packing walk of `addColumnToRight` (claims C5, C10, C1) -/

/-- One pass of the packing loop appends the contiguous slice of items it
visits, advances the cursor by exactly that many entries, stays within a
single pass, and reports `filled = false` only when it ran off the end. -/
theorem packLoopAux_spec (items : List Item) (target : ℚ) :
    ∀ (fuel i : Nat) (col : Column), i ≤ items.length → items.length ≤ i + fuel →
      ∃ k,
        (packLoopAux items target fuel i col).2.1 = i + k ∧
        i + k ≤ items.length ∧
        (packLoopAux items target fuel i col).1.entries =
          col.entries ++ walkFrom items i k ∧
        ((packLoopAux items target fuel i col).2.2 = false → i + k = items.length) := by
  intro fuel
  induction fuel with
  | zero =>
    intro i col hi hfuel
    refine ⟨0, rfl, by omega, by simp [packLoopAux, walkFrom], fun _ => by omega⟩
  | succ n ih =>
    intro i col hi hfuel
    rw [packLoopAux]
    by_cases h : i < items.length
    · rw [dif_pos h]
      by_cases hfull : target ≤ (addItemToColumn col (items.get ⟨i, h⟩)).height
      · rw [if_pos hfull]
        refine ⟨1, rfl, by omega, ?_, fun hff => by simp at hff⟩
        rw [walkFrom_cons_of_lt items i h 0]
        simp [addItemToColumn, walkFrom]
      · rw [if_neg hfull]
        obtain ⟨k, hk1, hk2, hk3, hk4⟩ :=
          ih (i + 1) (addItemToColumn col (items.get ⟨i, h⟩)) (by omega) (by omega)
        refine ⟨k + 1, by omega, by omega, ?_, fun hff => by have := hk4 hff; omega⟩
        rw [hk3, walkFrom_cons_of_lt items i h k]
        simp [addItemToColumn]
    · rw [dif_neg h]
      refine ⟨0, rfl, by omega, by simp [walkFrom], fun _ => by omega⟩

/-- `packLoop` specification: the pass starting at `i ≤ items.length`. -/
theorem packLoop_spec (items : List Item) (target : ℚ) (i : Nat) (col : Column)
    (hi : i ≤ items.length) :
    ∃ k,
      (packLoop items target i col).2.1 = i + k ∧
      i + k ≤ items.length ∧
      (packLoop items target i col).1.entries = col.entries ++ walkFrom items i k ∧
      ((packLoop items target i col).2.2 = false → i + k = items.length) :=
  packLoopAux_spec items target (items.length - i) i col hi (by omega)

/-- Across all repeats, the packed column's entries are exactly the
wrap-around walk from the start cursor, and the final raw cursor is congruent
to the start plus the number of placed entries. -/
theorem packGo_spec (items : List Item) (target : ℚ) (hlen : 0 < items.length) :
    ∀ (fuel i : Nat) (col : Column), i ≤ items.length →
      ∃ m,
        (packGo items target fuel i col).1.entries =
          col.entries ++ walkFrom items i m ∧
        (packGo items target fuel i col).2 % items.length =
          (i + m) % items.length := by
  intro fuel
  induction fuel with
  | zero =>
    intro i col hi
    exact ⟨0, by simp [packGo, walkFrom], by simp [packGo]⟩
  | succ n ih =>
    intro i col hi
    rcases hpl : packLoop items target i col with ⟨col2, i2, fl⟩
    obtain ⟨k, hk1, hk2, hk3, hk4⟩ := packLoop_spec items target i col hi
    rw [hpl] at hk1 hk3 hk4
    dsimp only at hk1 hk3 hk4
    rw [packGo, hpl]
    cases fl with
    | true =>
      dsimp only
      exact ⟨k, hk3, by rw [hk1]⟩
    | false =>
      dsimp only
      have hwrap : i + k = items.length := hk4 rfl
      obtain ⟨m2, hm1, hm2⟩ := ih 0 col2 (by omega)
      refine ⟨k + m2, ?_, ?_⟩
      · rw [hm1, hk3, walkFrom_append items k i m2, List.append_assoc]
        have : walkFrom items (i + k) m2 = walkFrom items 0 m2 :=
          walkFrom_congr items m2 (i + k) 0 (by rw [hwrap, Nat.mod_self, Nat.zero_mod])
        rw [this]
      · rw [hm2]
        have h1 : i + (k + m2) = items.length + m2 := by omega
        rw [h1, Nat.add_mod_left, Nat.zero_add]

/-- The column packed by `addColumnToRight` holds exactly the wrap-around
walk of `m` entries from the start cursor, and the returned cursor is
`(startCursor + m) % items.length`, which is always below `items.length`. -/
theorem addColumnToRight_spec (items : List Item) (target : ℚ) (startCursor : Nat)
    (hlen : 0 < items.length) (hs : startCursor ≤ items.length) :
    ∃ m,
      (addColumnToRight items target startCursor).1.entries = walkFrom items startCursor m ∧
      (addColumnToRight items target startCursor).2 =
        (startCursor + m) % items.length ∧
      (addColumnToRight items target startCursor).2 < items.length := by
  obtain ⟨m, hm1, hm2⟩ :=
    packGo_spec items target hlen MAX_REPEATS startCursor Column.empty hs
  refine ⟨m, ?_, ?_, ?_⟩
  · simpa [addColumnToRight, Column.empty] using hm1
  · show (packGo items target MAX_REPEATS startCursor Column.empty).2 % items.length = _
    rw [hm2]
  · exact Nat.mod_lt _ hlen

/-- Claim C5 counterexample: the single 80-pixel divider fills the column at
target 5 immediately, so the absolute walked position is the start cursor `0`
plus the one placed entry, i.e. `1` (`= items.length`, which would let a
caller detect the wrap past the end); but the code returns
`i % items.length = 0`, already reduced. -/
theorem pack_cursor_not_absolute :
    (addColumnToRight [Item.yearDivider 2021] 5 0).1.entries.length = 1 ∧
    (addColumnToRight [Item.yearDivider 2021] 5 0).2 ≠
      0 + (addColumnToRight [Item.yearDivider 2021] 5 0).1.entries.length := by
  norm_num [addColumnToRight, packGo, packLoop, packLoopAux, addItemToColumn,
    itemHeight, MAX_REPEATS, YEAR_TAG_HEIGHT, YEAR_TAG_MARGIN, Column.empty]

/-- Claim C5 (amended): for every sequence and every in-range start cursor,
`addColumnToRight` returns the advanced cursor reduced modulo the sequence
length — `(startCursor + number of placed entries) % items.length`, always in
`[0, items.length)` — so the wrap count is not recoverable from the returned
cursor. -/
theorem pack_cursor_modulo (items : List Item) (target : ℚ) (startCursor : Nat)
    (hlen : 0 < items.length) (hs : startCursor ≤ items.length) :
    (addColumnToRight items target startCursor).2 =
      (startCursor + (addColumnToRight items target startCursor).1.entries.length) %
        items.length ∧
    (addColumnToRight items target startCursor).2 < items.length := by
  obtain ⟨m, hm1, hm2, hm3⟩ := addColumnToRight_spec items target startCursor hlen hs
  have hmlen : (addColumnToRight items target startCursor).1.entries.length = m := by
    rw [hm1, walkFrom_length]
  rw [hmlen]
  exact ⟨hm2, hm3⟩

/-- Witness for C5 (amended): concrete instance at the counterexample input. -/
theorem pack_cursor_modulo_witness :
    (addColumnToRight [Item.yearDivider 2021] 5 0).2 =
      (0 + (addColumnToRight [Item.yearDivider 2021] 5 0).1.entries.length) % 1 ∧
    (addColumnToRight [Item.yearDivider 2021] 5 0).2 < 1 :=
  pack_cursor_modulo [Item.yearDivider 2021] 5 0 (by simp) (by simp)

/-! ### Cursor validity (claim C10) -/

/-- When the fill loop breaks with `filled = true`, the reported
`nextItemIdx` is an in-range item index. -/
theorem fillLoopAux_some_lt (items : List Item) (target : ℚ) :
    ∀ (fuel : Nat) (cols : List Column) (colIdx i nid : Nat),
      (fillLoopAux items target fuel cols colIdx i).2.2 = some nid →
      nid < items.length := by
  intro fuel
  induction fuel with
  | zero => intro cols colIdx i nid h; simp [fillLoopAux] at h
  | succ n ih =>
    intro cols colIdx i nid h
    rw [fillLoopAux] at h
    by_cases hi : i < items.length
    · rw [dif_pos hi] at h
      by_cases hf : skipFull cols target colIdx < cols.length
      · rw [dif_pos hf] at h
        exact ih _ _ _ _ h
      · rw [dif_neg hf] at h
        dsimp only at h
        cases h with
        | refl => exact hi
    · rw [dif_neg hi] at h
      simp at h

/-- The cursor returned by the outer fill loop is always in range for a
non-empty item sequence (the in-pass break index when filled, the reset `0`
when the repeat budget runs out). -/
theorem fillGo_lt (items : List Item) (target : ℚ) (hlen : 0 < items.length) :
    ∀ (fuel : Nat) (cols : List Column),
      (fillGo items target fuel cols).2 < items.length := by
  intro fuel
  induction fuel with
  | zero => intro cols; simpa [fillGo] using hlen
  | succ n ih =>
    intro cols
    rcases hfl : fillLoop items target cols 0 0 with ⟨cols2, colIdx2, res⟩
    rw [fillGo, hfl]
    cases res with
    | none => exact ih cols2
    | some nid =>
      dsimp only
      have : (fillLoop items target cols 0 0).2.2 = some nid := by rw [hfl]
      exact fillLoopAux_some_lt items target (items.length - 0) cols 0 0 nid this

/-- Claim C10: for a non-empty sequence every cursor the engine threads is in
`[0, items.length)`: the wall builder's returned `nextItemIdx`, the cursor
returned by each synthesized column (`i % items.length`), and the initial
cursor adopted by `AnimationController.start`
(`initialNextItemIdx % items.length`). -/
theorem cursor_validity (items : List Item) (target : ℚ)
    (initialCols startCols : List Column) (startCursor initialNextItemIdx : Nat)
    (hne : items ≠ []) :
    (fillColumns initialCols items target).2 < items.length ∧
    (addColumnToRight items target startCursor).2 < items.length ∧
    (startState startCols items initialNextItemIdx).nextItemIdx < items.length := by
  have hlen : 0 < items.length := List.length_pos.mpr hne
  refine ⟨fillGo_lt items target hlen MAX_REPEATS initialCols, ?_, ?_⟩
  · exact Nat.mod_lt _ hlen
  · exact Nat.mod_lt _ hlen

/-- Witness for C10 at a concrete one-item sequence. -/
theorem cursor_validity_witness :
    (fillColumns (createColumns 3) [Item.yearDivider 2021] 100).2 < 1 ∧
    (addColumnToRight [Item.yearDivider 2021] 100 5).2 < 1 ∧
    (startState (createColumns 3) [Item.yearDivider 2021] 7).nextItemIdx < 1 :=
  cursor_validity [Item.yearDivider 2021] 100 (createColumns 3) (createColumns 3) 5 7
    (by simp)

/-! ### Seam continuity (claim C1) -/

/-- The frontier invariant of the wall fill: some frontier `c` splits the
columns into a prefix of full columns (height at least the target), the
currently filling column `c` itself (unconstrained), and a suffix of still
untouched empty columns. -/
def FrontierInv (target : ℚ) (cols : List Column) (c : Nat) : Prop :=
  c ≤ cols.length ∧
  (∀ j (hj : j < cols.length), j < c → target ≤ (cols.get ⟨j, hj⟩).height) ∧
  (∀ j (hj : j < cols.length), c < j → cols.get ⟨j, hj⟩ = Column.empty)

/-- Behaviour of the full-column skip loop: it only moves forward over full
columns and stops at a non-full column or at the end. -/
theorem skipFullAux_spec (cols : List Column) (target : ℚ) :
    ∀ (fuel colIdx : Nat),
      colIdx ≤ skipFullAux cols target fuel colIdx ∧
      skipFullAux cols target fuel colIdx ≤ colIdx + fuel ∧
      (∀ j (hj : j < cols.length), colIdx ≤ j →
        j < skipFullAux cols target fuel colIdx → target ≤ (cols.get ⟨j, hj⟩).height) ∧
      (∀ hf : skipFullAux cols target fuel colIdx < cols.length,
        cols.length ≤ colIdx + fuel →
        (cols.get ⟨skipFullAux cols target fuel colIdx, hf⟩).height < target) := by
  intro fuel
  induction fuel with
  | zero =>
    intro colIdx
    simp only [skipFullAux]
    exact ⟨le_refl _, by omega, fun j hj h1 h2 => absurd h1 (by omega),
      fun hf hlen => absurd hf (by omega)⟩
  | succ n ih =>
    intro colIdx
    rw [skipFullAux]
    by_cases h : colIdx < cols.length
    · rw [dif_pos h]
      by_cases hfull : target ≤ (cols.get ⟨colIdx, h⟩).height
      · rw [if_pos hfull]
        obtain ⟨ih1, ih2, ih3, ih4⟩ := ih (colIdx + 1)
        refine ⟨by omega, by omega, ?_, fun hf hlen => ih4 hf (by omega)⟩
        intro j hj h1 h2
        rcases Nat.eq_or_lt_of_le h1 with heq | hlt
        · subst heq; exact hfull
        · exact ih3 j hj hlt h2
      · rw [if_neg hfull]
        exact ⟨le_refl _, by omega, fun j hj h1 h2 => by omega,
          fun hf _ => lt_of_not_le hfull⟩
    · rw [dif_neg h]
      exact ⟨le_refl _, by omega, fun j hj h1 h2 => by omega, fun hf _ => by omega⟩

/-- `skipFull` specification (the budget `cols.length - colIdx` exhausts only
past the end of the column list). -/
theorem skipFull_spec (cols : List Column) (target : ℚ) (colIdx : Nat) :
    colIdx ≤ skipFull cols target colIdx ∧
    (colIdx ≤ cols.length → skipFull cols target colIdx ≤ cols.length) ∧
    (∀ j (hj : j < cols.length), colIdx ≤ j → j < skipFull cols target colIdx →
      target ≤ (cols.get ⟨j, hj⟩).height) ∧
    (∀ hf : skipFull cols target colIdx < cols.length,
      (cols.get ⟨skipFull cols target colIdx, hf⟩).height < target) := by
  obtain ⟨h1, h2, h3, h4⟩ := skipFullAux_spec cols target (cols.length - colIdx) colIdx
  refine ⟨h1, fun hle => ?_, h3, fun hf => h4 hf (by omega)⟩
  show skipFullAux cols target (cols.length - colIdx) colIdx ≤ cols.length
  omega

/-- Under the frontier invariant the skip loop never stops before the
frontier. -/
theorem skipFull_frontier (target : ℚ) (cols : List Column) (c colIdx : Nat)
    (hinv : FrontierInv target cols c) :
    c ≤ skipFull cols target colIdx := by
  by_contra hlt
  push_neg at hlt
  have hflen : skipFull cols target colIdx < cols.length := by
    have := hinv.1; omega
  have hfull := hinv.2.1 (skipFull cols target colIdx) hflen hlt
  have hnot := (skipFull_spec cols target colIdx).2.2.2 hflen
  exact absurd hfull (not_le.mpr hnot)

/-- A list of columns that are all empty flattens to nothing. -/
theorem flattenCols_eq_nil (cols : List Column)
    (h : ∀ j (hj : j < cols.length), cols.get ⟨j, hj⟩ = Column.empty) :
    flattenCols cols = [] := by
  induction cols with
  | nil => rfl
  | cons c cs ih =>
    have hc : c = Column.empty := h 0 (by simp)
    have hcs : flattenCols cs = [] := by
      refine ih fun j hj => ?_
      have := h (j + 1) (by simpa using Nat.succ_lt_succ hj)
      simpa using this
    show c.entries ++ flattenCols cs = []
    rw [hc, hcs]
    rfl

/-- Appending an item to a column that is followed only by empty columns
appends that item to the flattened wall. -/
theorem flattenCols_set (cols : List Column) (f : Nat) (item : Item)
    (hf : f < cols.length)
    (hemp : ∀ j (hj : j < cols.length), f < j → cols.get ⟨j, hj⟩ = Column.empty) :
    flattenCols (cols.set f (addItemToColumn (cols.get ⟨f, hf⟩) item)) =
      flattenCols cols ++ [item] := by
  induction cols generalizing f with
  | nil => simp at hf
  | cons c cs ih =>
    cases f with
    | zero =>
      have hcs : flattenCols cs = [] := by
        refine flattenCols_eq_nil cs fun j hj => ?_
        have := hemp (j + 1) (by simpa using Nat.succ_lt_succ hj) (by omega)
        simpa using this
      show (addItemToColumn c item).entries ++ flattenCols cs =
        (c.entries ++ flattenCols cs) ++ [item]
      rw [hcs]
      simp [addItemToColumn]
    | succ f' =>
      have hf' : f' < cs.length := by simpa using hf
      have hemp' : ∀ j (hj : j < cs.length), f' < j → cs.get ⟨j, hj⟩ = Column.empty := by
        intro j hj hgt
        have := hemp (j + 1) (by simpa using Nat.succ_lt_succ hj) (by omega)
        simpa using this
      have hhead : (c :: cs).get ⟨f' + 1, hf⟩ = cs.get ⟨f', hf'⟩ := by simp
      show c.entries ++ flattenCols (cs.set f' _) = (c.entries ++ flattenCols cs) ++ [item]
      rw [show ((c :: cs).get ⟨f' + 1, hf⟩) = cs.get ⟨f', hf'⟩ from hhead] at *
      rw [ih f' hf' hemp', List.append_assoc]

/-- One pass of the wall fill loop: under the frontier invariant it places
the contiguous item slice `[i, stop)` at the end of the flattened wall,
preserves the invariant, and either breaks full at an in-range `stop` or
exhausts the items with `stop = items.length`. -/
theorem fillLoopAux_spec (items : List Item) (target : ℚ) :
    ∀ (fuel : Nat) (cols : List Column) (colIdx i c : Nat),
      FrontierInv target cols c → colIdx ≤ c → i ≤ items.length →
      items.length ≤ i + fuel →
      ∃ c2 stop,
        FrontierInv target (fillLoopAux items target fuel cols colIdx i).1 c2 ∧
        i ≤ stop ∧ stop ≤ items.length ∧
        flattenCols (fillLoopAux items target fuel cols colIdx i).1 =
          flattenCols cols ++ walkFrom items i (stop - i) ∧
        (((fillLoopAux items target fuel cols colIdx i).2.2 = some stop ∧
            stop < items.length) ∨
          ((fillLoopAux items target fuel cols colIdx i).2.2 = none ∧
            stop = items.length)) := by
  intro fuel
  induction fuel with
  | zero =>
    intro cols colIdx i c hinv hci hi hfuel
    refine ⟨c, i, hinv, le_refl _, hi, by simp [fillLoopAux, walkFrom], Or.inr ⟨rfl, by omega⟩⟩
  | succ n ih =>
    intro cols colIdx i c hinv hci hi hfuel
    rw [fillLoopAux]
    by_cases h : i < items.length
    · rw [dif_pos h]
      by_cases hfcase : skipFull cols target colIdx < cols.length
      · rw [dif_pos hfcase]
        obtain ⟨hs1, hs2, hs3, hs4⟩ := skipFull_spec cols target colIdx
        have hcf : c ≤ skipFull cols target colIdx := skipFull_frontier target cols c colIdx hinv
        have hinv2 : FrontierInv target
            (cols.set (skipFull cols target colIdx)
              (addItemToColumn (cols.get ⟨skipFull cols target colIdx, hfcase⟩)
                (items.get ⟨i, h⟩)))
            (skipFull cols target colIdx) := by
          refine ⟨by simpa using Nat.le_of_lt hfcase, ?_, ?_⟩
          · intro j hj hjlt
            have hjc : j < cols.length := by simpa using hj
            have hget : ((cols.set (skipFull cols target colIdx) _).get ⟨j, hj⟩) =
                cols.get ⟨j, hjc⟩ := by
              simp only [List.get_eq_getElem]
              exact List.getElem_set_ne (by omega) hj
            rw [hget]
            rcases Nat.lt_or_ge j c with hjltc | hjgec
            · exact hinv.2.1 j hjc hjltc
            · exact hs3 j hjc (by omega) hjlt
          · intro j hj hjgt
            have hjc : j < cols.length := by simpa using hj
            have hget : ((cols.set (skipFull cols target colIdx) _).get ⟨j, hj⟩) =
                cols.get ⟨j, hjc⟩ := by
              simp only [List.get_eq_getElem]
              exact List.getElem_set_ne (by omega) hj
            rw [hget]
            exact hinv.2.2 j hjc (by omega)
        obtain ⟨c2, stop, hI, hst1, hst2, hflat, hres⟩ :=
          ih _ (skipFull cols target colIdx) (i + 1) (skipFull cols target colIdx)
            hinv2 (le_refl _) (by omega) (by omega)
        refine ⟨c2, stop, hI, by omega, hst2, ?_, hres⟩
        rw [hflat]
        have hsetflat := flattenCols_set cols (skipFull cols target colIdx)
          (items.get ⟨i, h⟩) hfcase (fun j hj hgt => hinv.2.2 j hj (by omega))
        rw [hsetflat]
        have hsub : stop - i = (stop - (i + 1)) + 1 := by omega
        rw [hsub, walkFrom_cons_of_lt items i h (stop - (i + 1))]
        simp
      · rw [dif_neg hfcase]
        exact ⟨c, i, hinv, le_refl _, by omega, by simp [walkFrom], Or.inl ⟨rfl, h⟩⟩
    · rw [dif_neg h]
      exact ⟨c, i, hinv, le_refl _, hi, by simp [walkFrom], Or.inr ⟨rfl, by omega⟩⟩

/-- Across repeats, the wall fill appends the wrap-around walk of some `m`
entries from position `0` to the flattened wall, returns a cursor congruent
to `m`, and that cursor is in range. -/
theorem fillGo_spec (items : List Item) (target : ℚ)
    (hlen : 0 < items.length) :
    ∀ (fuel : Nat) (cols : List Column) (c : Nat), FrontierInv target cols c →
      ∃ m,
        flattenCols (fillGo items target fuel cols).1 =
          flattenCols cols ++ walkFrom items 0 m ∧
        (fillGo items target fuel cols).2 % items.length = m % items.length := by
  intro fuel
  induction fuel with
  | zero =>
    intro cols c hinv
    exact ⟨0, by simp [fillGo, walkFrom], by simp [fillGo]⟩
  | succ n ih =>
    intro cols c hinv
    rcases hfl : fillLoop items target cols 0 0 with ⟨cols2, colIdx2, res⟩
    obtain ⟨c2, stop, hI, _, hstople, hflat, hres⟩ :=
      fillLoopAux_spec items target (items.length - 0) cols 0 0 c hinv
        (Nat.zero_le c) (Nat.zero_le _) (by omega)
    have hfl2 : fillLoopAux items target (items.length - 0) cols 0 0 = (cols2, colIdx2, res) := hfl
    rw [hfl2] at hI hflat hres
    dsimp only at hI hflat hres
    rw [fillGo, hfl]
    rcases hres with ⟨hsome, hlt⟩ | ⟨hnone, hstop⟩
    · subst hsome
      dsimp only
      refine ⟨stop, ?_, rfl⟩
      simpa using hflat
    · subst hnone
      dsimp only
      obtain ⟨m2, hm1, hm2⟩ := ih cols2 c2 hI
      refine ⟨items.length + m2, ?_, ?_⟩
      · rw [hm1, hflat]
        have hs : stop - 0 = items.length := by omega
        rw [hs, walkFrom_append items items.length 0 m2]
        have hcongr : walkFrom items (0 + items.length) m2 = walkFrom items 0 m2 :=
          walkFrom_congr items m2 (0 + items.length) 0 (by simp [Nat.mod_self])
        rw [hcongr, List.append_assoc]
      · rw [hm2, Nat.add_mod_left]

/-- Each synthesized column continues the wrap-around walk exactly where the
previous one stopped, so `N` synthesized columns flatten to one contiguous
walk from the start cursor. -/
theorem synthColumns_spec (items : List Item) (target : ℚ) (hlen : 0 < items.length) :
    ∀ (N s : Nat), s < items.length →
      ∃ M, flattenCols (synthColumns items target N s).1 = walkFrom items s M := by
  intro N
  induction N with
  | zero => intro s _; exact ⟨0, rfl⟩
  | succ n ih =>
    intro s hs
    obtain ⟨m, hm1, hm2, hm3⟩ :=
      addColumnToRight_spec items target s hlen (Nat.le_of_lt hs)
    obtain ⟨M2, hM2⟩ := ih (addColumnToRight items target s).2 hm3
    refine ⟨m + M2, ?_⟩
    show (addColumnToRight items target s).1.entries ++
        flattenCols (synthColumns items target n (addColumnToRight items target s).2).1 = _
    rw [hm1, hM2, walkFrom_append items m s M2]
    congr 1
    refine walkFrom_congr items M2 _ _ ?_
    rw [hm2, Nat.mod_mod_of_dvd _ dvd_rfl]

/-- Claim C1: the wall built by `fillColumns` over fresh columns, followed by
any number `N` of columns synthesized by `addColumnToRight` starting from the
returned cursor (reduced modulo the length exactly as
`AnimationController.start` does), flattens — in column order — to one
contiguous, gap-free, non-duplicated wrap-around walk of the item sequence
from position `0`. -/
theorem seam_continuity (items : List Item) (target : ℚ) (numCols N : Nat)
    (hne : items ≠ []) :
    flattenCols (fillColumns (createColumns numCols) items target).1 ++
        flattenCols (synthColumns items target N
          ((fillColumns (createColumns numCols) items target).2 % items.length)).1 =
      walkFrom items 0
        (flattenCols (fillColumns (createColumns numCols) items target).1 ++
          flattenCols (synthColumns items target N
            ((fillColumns (createColumns numCols) items target).2 % items.length)).1).length := by
  have hlen : 0 < items.length := List.length_pos.mpr hne
  have hinv0 : FrontierInv target (createColumns numCols) 0 := by
    refine ⟨Nat.zero_le _, fun j hj hlt => by omega, fun j hj _ => ?_⟩
    simp [createColumns]
  have hflat0 : flattenCols (createColumns numCols) = [] := by
    refine flattenCols_eq_nil _ fun j hj => ?_
    simp [createColumns]
  obtain ⟨W, hW1, hW2⟩ :=
    fillGo_spec items target hlen MAX_REPEATS (createColumns numCols) 0 hinv0
  have hwall : flattenCols (fillColumns (createColumns numCols) items target).1 =
      walkFrom items 0 W := by
    show flattenCols (fillGo items target MAX_REPEATS (createColumns numCols)).1 = _
    rw [hW1, hflat0]
    rfl
  have hcursor : (fillColumns (createColumns numCols) items target).2 % items.length <
      items.length := Nat.mod_lt _ hlen
  obtain ⟨M, hM⟩ := synthColumns_spec items target hlen N
    ((fillColumns (createColumns numCols) items target).2 % items.length) hcursor
  have hsynth : flattenCols (synthColumns items target N
      ((fillColumns (createColumns numCols) items target).2 % items.length)).1 =
      walkFrom items W M := by
    rw [hM]
    refine walkFrom_congr items M _ _ ?_
    show (fillGo items target MAX_REPEATS (createColumns numCols)).2 % items.length %
        items.length = W % items.length
    rw [Nat.mod_mod_of_dvd _ dvd_rfl, hW2]
  have hcat : flattenCols (fillColumns (createColumns numCols) items target).1 ++
      flattenCols (synthColumns items target N
        ((fillColumns (createColumns numCols) items target).2 % items.length)).1 =
      walkFrom items 0 (W + M) := by
    rw [hwall, hsynth, walkFrom_append items W 0 M]
    simp
  rw [hcat, walkFrom_length]

/-- Witness for C1: one initial column and one synthesized column over a
single-divider sequence. -/
theorem seam_continuity_witness :
    flattenCols (fillColumns (createColumns 1) [Item.yearDivider 2021] 100).1 ++
        flattenCols (synthColumns [Item.yearDivider 2021] 100 1
          ((fillColumns (createColumns 1) [Item.yearDivider 2021] 100).2 % 1)).1 =
      walkFrom [Item.yearDivider 2021] 0
        (flattenCols (fillColumns (createColumns 1) [Item.yearDivider 2021] 100).1 ++
          flattenCols (synthColumns [Item.yearDivider 2021] 100 1
            ((fillColumns (createColumns 1) [Item.yearDivider 2021] 100).2 % 1)).1).length := by
  have h := seam_continuity [Item.yearDivider 2021] 100 1 1 (by simp)
  simpa using h

/-! ### Synthesis trigger (claim C4) -/

/-- Claim C4 counterexample: with 4 columns of width 200, offset `-10` and
viewport width 600, the claimed trigger `columns * colWidth + offset ≤
viewportWidth` is false (`790 ≤ 600` fails), yet the frame synthesizes a
column, because the code's actual trigger is
`wallWidth + offset < viewportWidth + colWidth` (`790 < 800`). -/
theorem synthesis_trigger_counterexample :
    ¬ ((4 : ℚ) * 200 + (-10) ≤ 600) ∧
    (synthStep [Item.yearDivider 2021] 80 200 600
        ⟨-10, List.replicate 4 Column.empty, 0⟩).currentColumns.length = 5 := by
  constructor
  · norm_num
  · norm_num [synthStep, getWallWidth, addColumnToRight, packGo, packLoop, packLoopAux,
      addItemToColumn, itemHeight, MAX_REPEATS, YEAR_TAG_HEIGHT, YEAR_TAG_MARGIN,
      Column.empty]

/-- Claim C4 (amended): after the offset has been advanced, the frame
synthesizes exactly one new column — packed by `addColumnToRight` from the
tracked cursor, appended on the right, with the cursor advanced to the
packer's return — if and only if
`(number of columns) * colWidth + offsetPixels < viewportWidth + colWidth`;
otherwise the synthesis step leaves the state unchanged. -/
theorem synthesis_trigger (items : List Item) (target colWidth viewportWidth : ℚ)
    (st : AnimState) :
    (getWallWidth st colWidth + st.coverFlowOffset < viewportWidth + colWidth →
      synthStep items target colWidth viewportWidth st =
        { st with
          currentColumns :=
            st.currentColumns ++ [(addColumnToRight items target st.nextItemIdx).1],
          nextItemIdx := (addColumnToRight items target st.nextItemIdx).2 }) ∧
    (¬ getWallWidth st colWidth + st.coverFlowOffset < viewportWidth + colWidth →
      synthStep items target colWidth viewportWidth st = st) := by
  constructor
  · intro hcond
    rw [synthStep, if_pos hcond]
  · intro hcond
    rw [synthStep, if_neg hcond]

/-- Witness for C4: a 2-column wall (width 390 including the offset) inside a
600-pixel viewport triggers exactly one synthesis. -/
theorem synthesis_trigger_witness :
    synthStep [Item.yearDivider 2021] 80 200 600 ⟨-10, createColumns 2, 0⟩ =
      { coverFlowOffset := -10,
        currentColumns := createColumns 2 ++
          [(addColumnToRight [Item.yearDivider 2021] 80 0).1],
        nextItemIdx := (addColumnToRight [Item.yearDivider 2021] 80 0).2 } :=
  (synthesis_trigger [Item.yearDivider 2021] 80 200 600 ⟨-10, createColumns 2, 0⟩).1
    (by norm_num [getWallWidth, createColumns])

/-! ### Offset renormalization (claim C2) -/

/-- Claim C2 counterexample: after a 30000 ms frame delta the offset drops to
`-900` and a single retirement only renormalizes it to `-700 < -columnWidth`
(the retirement check runs at most once per frame); and after a frame with
delta `0` (the first frame establishes its baseline with zero elapsed time)
the offset is `0`, violating the claimed strict upper bound `0 > offset`. -/
theorem offset_renormalization_counterexample :
    (runFrames [Item.yearDivider 2021] 80 200 600
        (startState (createColumns 3) [Item.yearDivider 2021] 0) [30000]).coverFlowOffset <
      -200 ∧
    ¬ ((0 : ℚ) >
        (runFrames [Item.yearDivider 2021] 80 200 600
          (startState (createColumns 3) [Item.yearDivider 2021] 0) [0]).coverFlowOffset) := by
  constructor
  · norm_num [runFrames, frameStep, advanceOffset, synthStep, removeColumnFromLeft,
      startState, getWallWidth, addColumnToRight, packGo, packLoop, packLoopAux,
      addItemToColumn, itemHeight, createColumns, Column.empty, ANIMATION_SPEED,
      YEAR_TAG_HEIGHT, YEAR_TAG_MARGIN]
  · norm_num [runFrames, frameStep, advanceOffset, synthStep, removeColumnFromLeft,
      startState, getWallWidth, addColumnToRight, packGo, packLoop, packLoopAux,
      addItemToColumn, itemHeight, createColumns, Column.empty, ANIMATION_SPEED,
      YEAR_TAG_HEIGHT, YEAR_TAG_MARGIN]

/-- The synthesis step never changes the scroll offset. -/
theorem synthStep_offset (items : List Item) (target colWidth viewportWidth : ℚ)
    (st : AnimState) :
    (synthStep items target colWidth viewportWidth st).coverFlowOffset =
      st.coverFlowOffset := by
  rw [synthStep]
  split <;> rfl

/-- After the synthesis step the column list is never empty, provided the
viewport is not degenerate and the offset is non-positive: an empty wall has
width `0`, which always triggers synthesis. -/
theorem synthStep_ne_nil (items : List Item) (target colWidth viewportWidth : ℚ)
    (st : AnimState) (hcw : 0 < colWidth) (hvw : 0 ≤ viewportWidth)
    (hoff : st.coverFlowOffset ≤ 0) :
    (synthStep items target colWidth viewportWidth st).currentColumns ≠ [] := by
  rw [synthStep]
  rcases hcols : st.currentColumns with _ | ⟨c, cs⟩
  · have hcond : getWallWidth st colWidth + st.coverFlowOffset < viewportWidth + colWidth := by
      rw [getWallWidth, hcols]
      simp only [List.length_nil, Nat.cast_zero, zero_mul]
      linarith
    rw [if_pos hcond]
    simp [hcols]
  · split
    · simp [hcols]
    · simp [hcols]

/-- One frame preserves the renormalization window `(-colWidth, 0]`, provided
the frame's pixel advance `ANIMATION_SPEED * delta / 1000` is non-negative
and at most one column width. -/
theorem frameStep_offset_inv (items : List Item) (target colWidth viewportWidth : ℚ)
    (st : AnimState) (delta : ℚ) (hcw : 0 < colWidth) (hvw : 0 ≤ viewportWidth)
    (h1 : -colWidth < st.coverFlowOffset) (h2 : st.coverFlowOffset ≤ 0)
    (hd0 : 0 ≤ delta) (hd1 : ANIMATION_SPEED * delta / 1000 ≤ colWidth) :
    -colWidth < (frameStep items target colWidth viewportWidth st delta).coverFlowOffset ∧
    (frameStep items target colWidth viewportWidth st delta).coverFlowOffset ≤ 0 := by
  have hdpx : 0 ≤ ANIMATION_SPEED * delta / 1000 := by
    have : (0 : ℚ) ≤ ANIMATION_SPEED * delta := by
      have : (0 : ℚ) ≤ ANIMATION_SPEED := by norm_num [ANIMATION_SPEED]
      exact mul_nonneg this hd0
    positivity
  set st1 := advanceOffset st delta with hst1
  have hoff1a : -colWidth - colWidth < st1.coverFlowOffset := by
    show -colWidth - colWidth < st.coverFlowOffset - ANIMATION_SPEED * delta / 1000
    linarith
  have hoff1b : st1.coverFlowOffset ≤ 0 := by
    show st.coverFlowOffset - ANIMATION_SPEED * delta / 1000 ≤ 0
    linarith
  set st2 := synthStep items target colWidth viewportWidth st1 with hst2
  have hoff2 : st2.coverFlowOffset = st1.coverFlowOffset :=
    synthStep_offset items target colWidth viewportWidth st1
  have hne : st2.currentColumns ≠ [] :=
    synthStep_ne_nil items target colWidth viewportWidth st1 hcw hvw hoff1b
  show -colWidth < (removeColumnFromLeft colWidth st2).coverFlowOffset ∧
    (removeColumnFromLeft colWidth st2).coverFlowOffset ≤ 0
  rw [removeColumnFromLeft, if_neg hne]
  by_cases hret : st2.coverFlowOffset + colWidth ≤ 0
  · rw [if_pos hret]
    dsimp only
    constructor
    · rw [hoff2]; linarith
    · rw [hoff2] at hret ⊢; linarith
  · rw [if_neg hret]
    constructor
    · rw [hoff2] at hret ⊢; linarith
    · rw [hoff2]; linarith

/-- Claim C2 (amended): starting from `start`'s state (offset `0`), after the
retirement check of every frame the offset lies in the window
`-columnWidth < offsetPixels ≤ 0` — provided the viewport width is
non-negative, the column width positive, and every frame delta is
non-negative with a pixel advance of at most one column width. The bounds of
the claim are corrected on both ends: the offset can be exactly `0` (e.g. on
the zero-delta first frame) and can never be exactly `-columnWidth` after the
check. -/
theorem offset_renormalization_invariant (items : List Item)
    (target colWidth viewportWidth : ℚ) (columns : List Column)
    (initialNextItemIdx : Nat) (deltas : List ℚ)
    (hcw : 0 < colWidth) (hvw : 0 ≤ viewportWidth)
    (hd : ∀ d ∈ deltas, 0 ≤ d ∧ ANIMATION_SPEED * d / 1000 ≤ colWidth) :
    -colWidth <
      (runFrames items target colWidth viewportWidth
        (startState columns items initialNextItemIdx) deltas).coverFlowOffset ∧
    (runFrames items target colWidth viewportWidth
      (startState columns items initialNextItemIdx) deltas).coverFlowOffset ≤ 0 := by
  have main : ∀ (ds : List ℚ) (st : AnimState),
      (∀ d ∈ ds, 0 ≤ d ∧ ANIMATION_SPEED * d / 1000 ≤ colWidth) →
      -colWidth < st.coverFlowOffset → st.coverFlowOffset ≤ 0 →
      -colWidth < (runFrames items target colWidth viewportWidth st ds).coverFlowOffset ∧
      (runFrames items target colWidth viewportWidth st ds).coverFlowOffset ≤ 0 := by
    intro ds
    induction ds with
    | nil => intro st _ h1 h2; exact ⟨h1, h2⟩
    | cons d rest ih =>
      intro st hds h1 h2
      have hd0 := (hds d (List.mem_cons_self d rest)).1
      have hd1 := (hds d (List.mem_cons_self d rest)).2
      have hstep := frameStep_offset_inv items target colWidth viewportWidth st d
        hcw hvw h1 h2 hd0 hd1
      have hrest : ∀ x ∈ rest, 0 ≤ x ∧ ANIMATION_SPEED * x / 1000 ≤ colWidth :=
        fun x hx => hds x (List.mem_cons_of_mem d hx)
      exact ih (frameStep items target colWidth viewportWidth st d) hrest hstep.1 hstep.2
  exact main deltas (startState columns items initialNextItemIdx) hd
    (by show -colWidth < 0; linarith) (le_refl 0)

/-- Witness for C2 (amended): a 100 ms frame (3 pixels) keeps the offset in
the window. -/
theorem offset_renormalization_invariant_witness :
    -200 <
      (runFrames [Item.yearDivider 2021] 80 200 600
        (startState (createColumns 3) [Item.yearDivider 2021] 0) [100]).coverFlowOffset ∧
    (runFrames [Item.yearDivider 2021] 80 200 600
      (startState (createColumns 3) [Item.yearDivider 2021] 0) [100]).coverFlowOffset ≤ 0 :=
  offset_renormalization_invariant [Item.yearDivider 2021] 80 200 600 (createColumns 3) 0
    [100] (by norm_num) (by norm_num)
    (by
      intro d hd
      simp only [List.mem_singleton] at hd
      subst hd
      norm_num [ANIMATION_SPEED])

end CoverFlow
